import Mathlib

/-!
Verification of the steganographic image-authentication engine.

The development shallowly embeds the server-side services of the
repository (`SteganographyService`, `CryptographyService`,
`AttackSimulationService`): raw pixel buffers become `List Nat`
(one natural number per 8-bit sample), bit strings become `List Char`
(the TypeScript code manipulates JavaScript strings of `'0'`/`'1'`
characters), and fallible operations return `Except`.  External
primitives that cannot be translated (SHA-256, Node's asymmetric
signature verification, the sharp image codec, floating-point PSNR)
are taken as explicit function parameters, so every theorem below
quantifies over their behaviour.
-/

namespace Stego

/-- Numeric value of one character of the embedded bit string, as the
TypeScript expression `parseInt(bits[i])` followed by a bitwise OR
produces it: a decimal digit yields its value, and any other character
yields `NaN`, which JavaScript's bitwise OR coerces to `0`. -/
def bitVal (c : Char) : Nat :=
  if c.isDigit then c.toNat - 48 else 0

/-- `SteganographyService.embedLSB` (part_006, lines 531-543): walk the
bit string and the position list in lockstep (the loop stops at the
shorter of the two), and at each in-bounds position overwrite the byte
with `(byte & 0xFE) | bit`.  `List.set` is a no-op on an out-of-range
index, exactly like the `if (pos < modifiedData.length)` guard. -/
def embedLSB (pixelData : List Nat) (bits : List Char) (positions : List Nat) : List Nat :=
  (bits.zip positions).foldl
    (fun modifiedData cp =>
      modifiedData.set cp.2 ((modifiedData.getD cp.2 0 &&& 0xFE) ||| bitVal cp.1))
    pixelData

/-- `SteganographyService.extractLSB` (part_006, lines 545-555): read
`pixelData[pos] & 1` for each in-bounds position, in order, producing
one `'0'`/`'1'` character per in-bounds position; out-of-bounds
positions are silently skipped. -/
def extractLSB (pixelData : List Nat) (positions : List Nat) : List Char :=
  positions.filterMap (fun pos =>
    if pos < pixelData.length then
      some (if pixelData.getD pos 0 &&& 1 = 1 then '1' else '0')
    else none)

/-- Buffer-masking loop of `SteganographyService.computeImageHash`
(part_006, lines 510-521): copy the buffer and clear (`& 0xFE`) the
byte at each in-bounds embed position. -/
def clearLSBs (pixelData : List Nat) (embedPositions : List Nat) : List Nat :=
  embedPositions.foldl
    (fun modifiedData pos => modifiedData.set pos (modifiedData.getD pos 0 &&& 0xFE))
    pixelData

/-- `SteganographyService.computeImageHash` (part_006, lines 510-521):
SHA-256 of the masked buffer.  The hash itself is an external
primitive, passed in as `sha256`. -/
def computeImageHash (sha256 : List Nat → String) (pixelData : List Nat)
    (embedPositions : List Nat) : String :=
  sha256 (clearLSBs pixelData embedPositions)

/-- Loop of `SteganographyService.generateEmbedPositions` (part_006,
lines 497-508): `for (let i = 0; i < 2048 && i * step < totalPixels; i++)
positions.push(i * step)`, rendered with explicit fuel `2048 - i` so
that the early-exit condition is preserved exactly. -/
def genPosLoop (step totalPixels : Nat) : Nat → Nat → List Nat
  | 0, _ => []
  | fuel + 1, i =>
    if i * step < totalPixels then i * step :: genPosLoop step totalPixels fuel (i + 1)
    else []

/-- `SteganographyService.generateEmbedPositions` (part_006, lines
497-508): `step = floor(totalPixels / 2048)`, then the loop above
starting at `i = 0` with at most 2048 iterations. -/
def generateEmbedPositions (totalPixels : Nat) : List Nat :=
  genPosLoop (totalPixels / 2048) totalPixels 2048 0

/-- Hex digit character for a nibble value, as JavaScript's
`Number.prototype.toString(16)` renders it (`0`-`9`, then `a`-`f`). -/
def hexDigit (n : Nat) : Char :=
  if n < 10 then Char.ofNat (48 + n) else Char.ofNat (87 + n)

/-- `SteganographyService.bitsToSignature` (part_006, lines 557-567):
group the bit string into 4-bit chunks from the start, each complete
chunk becoming one hex digit; a trailing incomplete chunk is dropped. -/
def bitsToSignature : List Char → List Char
  | b0 :: b1 :: b2 :: b3 :: rest =>
    hexDigit (8 * bitVal b0 + 4 * bitVal b1 + 2 * bitVal b2 + bitVal b3) :: bitsToSignature rest
  | _ => []

/-- `SteganographyService.calculateIntegrityScore` (part_006, lines
613-618): `Math.round((validBits / totalBits) * 100)` where `validBits`
counts the `'0'`/`'1'` characters.  On an empty bit string JavaScript
computes `0 / 0 = NaN` and `Math.round(NaN) = NaN`, modelled as `none`;
otherwise `Math.round x = ⌊x + 1/2⌋`, which for the exact rational
`100 * validBits / totalBits` is `(200 * validBits + totalBits) / (2 * totalBits)`
in natural division. -/
def calculateIntegrityScore (bits : List Char) : Option Nat :=
  let totalBits := bits.length
  let validBits := (bits.filter (fun bit => bit == '0' || bit == '1')).length
  if totalBits = 0 then none
  else some ((200 * validBits + totalBits) / (2 * totalBits))

/-- `CryptographyService.getSigningAlgorithm` (part_006, lines
720-730): SHA-256 for the three supported schemes, an exception
(modelled as `Except.error`) for anything else. -/
def getSigningAlgorithm (signatureType : String) : Except String String :=
  match signatureType with
  | "RSA-2048" => .ok "sha256"
  | "RSA-4096" => .ok "sha256"
  | "ECDSA-256" => .ok "sha256"
  | _ => .error ("Unknown signature type: " ++ signatureType)

/-- `CryptographyService.verify` (part_006, lines 706-718): resolve the
digest algorithm, run Node's `createVerify`/`verify` pipeline (the
external primitive `nodeVerify`, which may itself throw, e.g. on a
malformed key or signature), and catch every error as `false`.
`nodeVerify` receives the algorithm, the payload, the public key and
the hex signature. -/
def cryptoVerify (nodeVerify : String → String → String → String → Except String Bool)
    (data signature publicKey signatureType : String) : Bool :=
  match getSigningAlgorithm signatureType >>= fun algorithm =>
      nodeVerify algorithm data publicKey signature with
  | .ok result => result
  | .error _ => false

/-- Stored record of an authenticated image, as
`attemptSignatureExtraction` consumes it (part_006, lines 569-611).
The raw `embedPositions` column is accessed as `image.embedPositions as
number[]` inside a per-record `try`: `.error` models an exception
raised while processing the record (caught, record skipped), `.ok
none` models a null/absent positions array (the `if (!embedPositions)
continue` guard), `.ok (some ps)` the normal case. -/
structure ImageRecord where
  id : Nat
  embedPositions : Except String (Option (List Nat))
  publicKey : String
  signatureType : String
  artistName : String
  artworkTitle : String
  creationDate : String

/-- One entry of the list built by `attemptSignatureExtraction`
(part_006, lines 587-600); the `success` field is always `true` in the
source and is therefore omitted. -/
structure ExtractionAttempt where
  imageId : Nat
  signature : List Char
  publicKey : String
  signatureType : String
  embedPositions : List Nat
  integrityScore : Option Nat
  artistName : String
  artworkTitle : String
  creationDate : String

/-- `SteganographyService.attemptSignatureExtraction` (part_006, lines
569-611): for every stored record, extract the LSBs at the record's
positions, convert them to a hex signature and compute the integrity
score; a record whose positions are null is skipped by `continue`, and
a record whose processing raises is skipped by the per-record
`catch`. -/
def attemptSignatureExtraction (pixelData : List Nat) (images : List ImageRecord) :
    List ExtractionAttempt :=
  images.filterMap (fun image =>
    match image.embedPositions with
    | .error _ => none
    | .ok none => none
    | .ok (some embedPositions) =>
      let extractedBits := extractLSB pixelData embedPositions
      some { imageId := image.id
             signature := bitsToSignature extractedBits
             publicKey := image.publicKey
             signatureType := image.signatureType
             embedPositions := embedPositions
             integrityScore := calculateIntegrityScore extractedBits
             artistName := image.artistName
             artworkTitle := image.artworkTitle
             creationDate := image.creationDate })

/-- Result record of `SteganographyService.verifyImage` (part_006,
lines 385-393): optional fields are absent (`undefined`) when the
source object literal omits them; `integrityScore` is `Option` because
`calculateIntegrityScore` can produce `NaN` (see above). -/
structure VerificationResult where
  isValid : Bool
  imageId : Option Nat
  extractedSignature : Option (List Char)
  integrityScore : Option Nat
  method : String
  errorMessage : Option String
deriving DecidableEq

/-- Predicate applied to each extraction attempt inside `verifyImage`
(part_006, lines 457-479): recompute the content hash at the attempt's
positions and ask the signature engine whether the extracted signature
verifies.  `verifier` abstracts `cryptographyService.verify`, taking
the hash, the extracted hex signature, the stored public key and the
scheme. -/
def attemptVerifies (verifier : String → List Char → String → String → Bool)
    (sha256 : List Nat → String) (pixelData : List Nat) (attempt : ExtractionAttempt) : Bool :=
  verifier (computeImageHash sha256 pixelData attempt.embedPositions)
    attempt.signature attempt.publicKey attempt.signatureType

/-- `SteganographyService.verifyImage` (part_006, lines 446-495): scan
the extraction attempts in store order, return on the first whose
signature verifies (`List.find?` is that loop), otherwise return the
`Invalid` record with `integrityScore = 0` and an explanatory message.
The success branch copies the attempt's id, signature and integrity
score; the failure branch leaves `imageId` and `extractedSignature`
absent. -/
def verifyImage (verifier : String → List Char → String → String → Bool)
    (sha256 : List Nat → String) (pixelData : List Nat) (images : List ImageRecord) :
    VerificationResult :=
  let attempts := attemptSignatureExtraction pixelData images
  match attempts.find? (attemptVerifies verifier sha256 pixelData) with
  | some attempt =>
    { isValid := true
      imageId := some attempt.imageId
      extractedSignature := some attempt.signature
      integrityScore := attempt.integrityScore
      method := "LSB_extraction"
      errorMessage := none }
  | none =>
    { isValid := false
      imageId := none
      extractedSignature := none
      integrityScore := some 0
      method := "LSB_extraction"
      errorMessage := some "No valid signature found or signature verification failed" }

/-- Result record of `AttackSimulationService.simulateAttack`
(part_007, lines 8-17).  The base64 before/after image payloads and
the parameter bag carry no algorithmic content for the verified claims
and are omitted; `integrityLoss` is `100 - integrityScore`, which is
`NaN` (modelled `none`) when the score is `NaN`; `psnr` is the value of
the floating-point PSNR computation, abstracted as a parameter. -/
structure AttackResult where
  attackType : String
  verificationPassed : Bool
  integrityLoss : Option Int
  psnr : Nat
  extractionSuccessful : Bool
deriving DecidableEq

/-- Attack types of the five `switch` cases of
`AttackSimulationService.simulateAttack` (part_007, lines 54-79). -/
def knownAttackTypes : List String :=
  ["jpeg_compression", "gaussian_noise", "cropping", "rotation", "scaling"]

/-- `AttackSimulationService.simulateAttack` (part_007, lines 50-104):
dispatch on the attack type (the `switch` default for an unknown type
throws), apply the corresponding image transform (`transform`,
abstracting the five sharp-based degradations keyed by attack type,
each of which may itself throw), verify the attacked buffer, and
assemble the result; `extractionSuccessful` is the literal source test
`verificationResult.extractedSignature !== undefined`. -/
def simulateAttack (transform : String → List Nat → Except String (List Nat))
    (verifier : String → List Char → String → String → Bool)
    (sha256 : List Nat → String) (psnrOf : List Nat → List Nat → Nat)
    (images : List ImageRecord) (originalBuffer : List Nat) (attackType : String) :
    Except String AttackResult :=
  if attackType ∈ knownAttackTypes then
    (transform attackType originalBuffer).map (fun attackedBuffer =>
      let verificationResult := verifyImage verifier sha256 attackedBuffer images
      { attackType := attackType
        verificationPassed := verificationResult.isValid
        integrityLoss := verificationResult.integrityScore.map (fun s => (100 : Int) - s)
        psnr := psnrOf originalBuffer attackedBuffer
        extractionSuccessful := verificationResult.extractedSignature.isSome })
  else .error ("Unknown attack type: " ++ attackType)

/-- `AttackSimulationService.runSimulations` (part_007, lines 21-48):
run each requested attack in order; a throwing simulation is caught
and replaced by the synthetic maximal-loss result for that entry. -/
def runSimulations (transform : String → List Nat → Except String (List Nat))
    (verifier : String → List Char → String → String → Bool)
    (sha256 : List Nat → String) (psnrOf : List Nat → List Nat → Nat)
    (images : List ImageRecord) (originalBuffer : List Nat) (attackTypes : List String) :
    List AttackResult :=
  attackTypes.map (fun attackType =>
    match simulateAttack transform verifier sha256 psnrOf images originalBuffer attackType with
    | .ok result => result
    | .error _ =>
      { attackType := attackType
        verificationPassed := false
        integrityLoss := some 100
        psnr := 0
        extractionSuccessful := false })

/-! ### Bit-level helper lemmas -/

theorem bitVal_le_one {c : Char} (h : c = '0' ∨ c = '1') : bitVal c ≤ 1 := by
  rcases h with h | h <;> subst h <;> decide

theorem testBit_succ_of_le_one {b : Nat} (hb : b ≤ 1) (j : Nat) : b.testBit (j + 1) = false := by
  apply Nat.testBit_lt_two_pow
  have h2 : (2 : Nat) ≤ 2 ^ (j + 1) := by
    have := Nat.one_lt_two_pow (n := j + 1) (by omega)
    omega
  omega

theorem or_low_mask (v b : Nat) (hb : b ≤ 1) : ((v &&& 0xFE) ||| b) &&& 0xFE = v &&& 0xFE := by
  apply Nat.eq_of_testBit_eq
  intro j
  cases j with
  | zero =>
    simp [Nat.testBit_and, Nat.testBit_or, Nat.testBit_zero]
  | succ n =>
    simp only [Nat.testBit_and, Nat.testBit_or, testBit_succ_of_le_one hb]
    cases v.testBit (n + 1) <;> cases Nat.testBit 0xFE (n + 1) <;> simp

theorem or_low_and_one (v b : Nat) (hb : b ≤ 1) : ((v &&& 0xFE) ||| b) &&& 1 = b := by
  rw [Nat.and_one_is_mod]
  have h0 : ((v &&& 0xFE) ||| b).testBit 0 = b.testBit 0 := by
    rw [Nat.testBit_or, Nat.testBit_and]
    have h254 : Nat.testBit 0xFE 0 = false := rfl
    rw [h254]
    simp
  rw [Nat.testBit_zero, Nat.testBit_zero] at h0
  have h1 : (((v &&& 0xFE) ||| b) % 2 = 1) ↔ (b % 2 = 1) := decide_eq_decide.mp h0
  omega

theorem mask_twice (v : Nat) : v &&& 0xFE &&& 0xFE = v &&& 0xFE := by
  have h := or_low_mask v 0 (by omega)
  simpa using h

set_option maxRecDepth 4096 in
theorem and254_eq_two_mul : ∀ v < 256, v &&& 0xFE = 2 * (v / 2) := by decide

set_option maxRecDepth 4096 in
theorem or_low_lt : ∀ v < 256, ∀ b ≤ 1, ((v &&& 0xFE) ||| b) < 256 := by decide

/-! ### Structural lemmas about `embedLSB`, `extractLSB`, `clearLSBs` -/

theorem embedLSB_nil_pos (d : List Nat) (bits : List Char) : embedLSB d bits [] = d := by
  simp [embedLSB, List.zip_nil_right]

theorem embedLSB_cons (d : List Nat) (c : Char) (bits : List Char) (p : Nat) (ps : List Nat) :
    embedLSB d (c :: bits) (p :: ps) =
      embedLSB (d.set p ((d.getD p 0 &&& 0xFE) ||| bitVal c)) bits ps := rfl

theorem embedLSB_length (d : List Nat) (bits : List Char) (ps : List Nat) :
    (embedLSB d bits ps).length = d.length := by
  induction bits generalizing d ps with
  | nil => rfl
  | cons c bits ih =>
    cases ps with
    | nil => rw [embedLSB_nil_pos]
    | cons p ps => rw [embedLSB_cons, ih, List.length_set]

theorem embedLSB_getElem?_not_mem (d : List Nat) (bits : List Char) (ps : List Nat)
    (i : Nat) (hi : i ∉ ps) : (embedLSB d bits ps)[i]? = d[i]? := by
  induction bits generalizing d ps with
  | nil => rfl
  | cons c bits ih =>
    cases ps with
    | nil => rw [embedLSB_nil_pos]
    | cons p ps =>
      have h1 : i ≠ p ∧ i ∉ ps := by simpa [List.mem_cons, not_or] using hi
      rw [embedLSB_cons, ih _ _ h1.2, List.getElem?_set_ne (Ne.symm h1.1)]

theorem embedLSB_masked (d : List Nat) (bits : List Char) (ps : List Nat)
    (hb : ∀ c ∈ bits, c = '0' ∨ c = '1') (i : Nat) :
    ((embedLSB d bits ps)[i]?).map (· &&& 0xFE) = (d[i]?).map (· &&& 0xFE) := by
  induction bits generalizing d ps with
  | nil => rfl
  | cons c bits ih =>
    cases ps with
    | nil => rw [embedLSB_nil_pos]
    | cons p ps =>
      rw [embedLSB_cons, ih _ _ (fun x hx => hb x (List.mem_cons_of_mem _ hx))]
      by_cases hpi : p = i
      · subst hpi
        by_cases hlt : p < d.length
        · rw [List.getElem?_set_self hlt, List.getElem?_eq_getElem hlt,
            List.getD_eq_getElem _ _ hlt]
          simp only [Option.map_some']
          exact congrArg some (or_low_mask _ _ (bitVal_le_one (hb c (List.mem_cons_self _ _))))
        · rw [List.set_eq_of_length_le (le_of_not_lt hlt)]
      · rw [List.getElem?_set_ne hpi]

theorem clearLSBs_cons (d : List Nat) (p : Nat) (ps : List Nat) :
    clearLSBs d (p :: ps) = clearLSBs (d.set p (d.getD p 0 &&& 0xFE)) ps := rfl

theorem clearLSBs_getElem? (d : List Nat) (ps : List Nat) (i : Nat) :
    (clearLSBs d ps)[i]? = if i ∈ ps then (d[i]?).map (· &&& 0xFE) else d[i]? := by
  induction ps generalizing d with
  | nil => simp [clearLSBs]
  | cons p ps ih =>
    rw [clearLSBs_cons, ih]
    by_cases hpi : i = p
    · subst hpi
      rw [if_pos (List.mem_cons_self i ps)]
      by_cases hlt : i < d.length
      · rw [List.getD_eq_getElem _ _ hlt]
        have hset : (d.set i (d[i] &&& 0xFE))[i]? = some (d[i] &&& 0xFE) :=
          List.getElem?_set_self (by simpa using hlt)
        by_cases hm : i ∈ ps
        · rw [if_pos hm, hset, List.getElem?_eq_getElem hlt]
          simp [Option.map_some', mask_twice]
        · rw [if_neg hm, hset, List.getElem?_eq_getElem hlt]
          simp [Option.map_some']
      · rw [List.set_eq_of_length_le (le_of_not_lt hlt)]
        have hnone : d[i]? = none := by
          rw [List.getElem?_eq_none_iff]
          omega
        rw [hnone]
        by_cases hm : i ∈ ps <;> simp [hm, hnone]
    · have hne : p ≠ i := fun h => hpi h.symm
      simp only [List.getElem?_set_ne hne]
      simp [List.mem_cons, hpi]

theorem extractLSB_binary (d : List Nat) (ps : List Nat) :
    ∀ c ∈ extractLSB d ps, c = '0' ∨ c = '1' := by
  intro c hc
  rw [extractLSB, List.mem_filterMap] at hc
  obtain ⟨p, _, hsome⟩ := hc
  by_cases h : p < d.length
  · have hc2 : (if d.getD p 0 &&& 1 = 1 then '1' else '0') = c := by simpa [h] using hsome
    rw [← hc2]
    by_cases hb : d.getD p 0 &&& 1 = 1
    · rw [if_pos hb]
      exact Or.inr rfl
    · rw [if_neg hb]
      exact Or.inl rfl
  · simp [h] at hsome

theorem extractLSB_eq_map (d : List Nat) (ps : List Nat) (h : ∀ p ∈ ps, p < d.length) :
    extractLSB d ps = ps.map (fun p => if d.getD p 0 &&& 1 = 1 then '1' else '0') := by
  induction ps with
  | nil => rfl
  | cons p ps ih =>
    have hp : p < d.length := h p (List.mem_cons_self p ps)
    have htail : List.filterMap
        (fun pos => if pos < d.length then
          some (if d.getD pos 0 &&& 1 = 1 then '1' else '0') else none) ps =
        extractLSB d ps := rfl
    simp only [extractLSB, List.filterMap_cons, if_pos hp, List.map_cons]
    rw [htail, ih (fun q hq => h q (List.mem_cons_of_mem _ hq))]

theorem extractLSB_length_of_inbounds (d : List Nat) (ps : List Nat)
    (h : ∀ p ∈ ps, p < d.length) : (extractLSB d ps).length = ps.length := by
  rw [extractLSB_eq_map d ps h, List.length_map]

/-- C2: embedding any bit string at any position sequence does not
change the content hash computed over those positions, whatever the
hash primitive is — the masked buffers coincide byte for byte. -/
theorem embed_preserves_image_hash (sha256 : List Nat → String) (buf : List Nat)
    (bits : List Char) (positions : List Nat)
    (hb : ∀ c ∈ bits, c = '0' ∨ c = '1') :
    computeImageHash sha256 (embedLSB buf bits positions) positions =
      computeImageHash sha256 buf positions := by
  unfold computeImageHash
  congr 1
  apply List.ext_getElem?
  intro i
  rw [clearLSBs_getElem?, clearLSBs_getElem?]
  by_cases hm : i ∈ positions
  · rw [if_pos hm, if_pos hm, embedLSB_masked _ _ _ hb]
  · rw [if_neg hm, if_neg hm, embedLSB_getElem?_not_mem _ _ _ _ hm]

/-- Witness for C2 at a concrete buffer, bit string, position list and
hash function. -/
theorem embed_preserves_image_hash_witness :
    computeImageHash (fun l => toString (l.foldl Nat.add 0)) (embedLSB [3, 4] ['1', '0'] [0, 1]) [0, 1] =
      computeImageHash (fun l => toString (l.foldl Nat.add 0)) [3, 4] [0, 1] :=
  embed_preserves_image_hash (fun l => toString (l.foldl Nat.add 0)) [3, 4] ['1', '0'] [0, 1]
    (by decide)

theorem getD_set_ne (d : List Nat) (p q w : Nat) (hne : p ≠ q) :
    (d.set p w).getD q 0 = d.getD q 0 := by
  rw [List.getD_eq_getElem?_getD, List.getD_eq_getElem?_getD, List.getElem?_set_ne hne]

theorem embedLSB_getElem?_at (buf : List Nat) (bits : List Char) (ps : List Nat)
    (hnd : ps.Nodup) (i : Nat) (hib : i < bits.length) (hip : i < ps.length)
    (hbd : ps.getD i 0 < buf.length) :
    (embedLSB buf bits ps)[ps.getD i 0]? =
      some ((buf.getD (ps.getD i 0) 0 &&& 0xFE) ||| bitVal (bits.getD i '0')) := by
  induction i generalizing buf bits ps with
  | zero =>
    cases bits with
    | nil => simp at hib
    | cons c bits =>
      cases ps with
      | nil => simp at hip
      | cons p ps =>
        rw [List.getD_cons_zero] at hbd ⊢
        rw [List.getD_cons_zero, embedLSB_cons]
        have hp : p ∉ ps := (List.nodup_cons.mp hnd).1
        rw [embedLSB_getElem?_not_mem _ _ _ _ hp]
        exact List.getElem?_set_self (by simpa using hbd)
  | succ n ihn =>
    cases bits with
    | nil => simp at hib
    | cons c bits =>
      cases ps with
      | nil => simp at hip
      | cons p ps =>
        rw [List.getD_cons_succ] at hbd ⊢
        rw [List.getD_cons_succ, embedLSB_cons]
        have hp : p ∉ ps := (List.nodup_cons.mp hnd).1
        have hnd' : ps.Nodup := (List.nodup_cons.mp hnd).2
        have hn : n < ps.length := by simpa using hip
        have hq : ps.getD n 0 ∈ ps := by
          rw [List.getD_eq_getElem _ _ hn]
          exact List.getElem_mem hn
        have hne : p ≠ ps.getD n 0 := fun h => hp (h ▸ hq)
        have hbd2 : ps.getD n 0 < (buf.set p ((buf.getD p 0 &&& 0xFE) ||| bitVal c)).length := by
          rw [List.length_set]
          exact hbd
        rw [ihn _ _ _ hnd' (by simpa using hib) hn hbd2, getD_set_ne _ _ _ _ hne]

/-- C1 (amended): embedding never touches a byte whose index is not in
the position list; and when the positions are pairwise distinct and all
within the buffer, extracting after embedding recovers the first
`min (len bits) (len positions)` embedded bits. -/
theorem embed_extract_roundtrip (buf : List Nat) (bits : List Char) (positions : List Nat) :
    (∀ i, i ∉ positions → (embedLSB buf bits positions)[i]? = buf[i]?) ∧
    ((∀ c ∈ bits, c = '0' ∨ c = '1') → positions.Nodup →
      (∀ p ∈ positions, p < buf.length) →
      (extractLSB (embedLSB buf bits positions) positions).take
          (min bits.length positions.length) =
        bits.take (min bits.length positions.length)) := by
  refine ⟨fun i hi => embedLSB_getElem?_not_mem _ _ _ _ hi, fun hb hnd hbd => ?_⟩
  apply List.ext_getElem?
  intro i
  rw [List.getElem?_take, List.getElem?_take]
  by_cases him : i < min bits.length positions.length
  · rw [if_pos him, if_pos him]
    have hib : i < bits.length := lt_of_lt_of_le him (min_le_left _ _)
    have hip : i < positions.length := lt_of_lt_of_le him (min_le_right _ _)
    have hbd2 : ∀ p ∈ positions, p < (embedLSB buf bits positions).length := by
      rw [embedLSB_length]
      exact hbd
    rw [extractLSB_eq_map _ _ hbd2, List.getElem?_map, List.getElem?_eq_getElem hip,
      List.getElem?_eq_getElem hib]
    simp only [Option.map_some']
    have hpd : positions.getD i 0 < buf.length := by
      rw [List.getD_eq_getElem _ _ hip]
      exact hbd _ (List.getElem_mem hip)
    have hkey := embedLSB_getElem?_at buf bits positions hnd i hib hip hpd
    have hlen : positions.getD i 0 < (embedLSB buf bits positions).length := by
      rw [embedLSB_length]
      exact hpd
    have hval : (embedLSB buf bits positions).getD (positions.getD i 0) 0 =
        (buf.getD (positions.getD i 0) 0 &&& 0xFE) ||| bitVal (bits.getD i '0') := by
      rw [List.getD_eq_getElem?_getD, hkey]
      rfl
    have hgdp : positions.getD i 0 = positions[i] := List.getD_eq_getElem _ _ hip
    have hgdb : bits.getD i '0' = bits[i] := List.getD_eq_getElem _ _ hib
    rw [← hgdp, hval, hgdb, or_low_and_one _ _ (bitVal_le_one (hb _ (List.getElem_mem hib)))]
    rcases hb _ (List.getElem_mem hib) with h1 | h1 <;> rw [h1] <;> rfl
  · rw [if_neg him, if_neg him]

/-- Counterexample to C1 as stated: with the duplicated position list
`[0, 0]`, the second embedded bit overwrites the first, so extraction
returns `"11"` instead of the embedded prefix `"01"`. -/
theorem embed_extract_roundtrip_counterexample :
    (extractLSB (embedLSB [0] ['0', '1'] [0, 0]) [0, 0]).take
        (min (['0', '1'] : List Char).length ([0, 0] : List Nat).length) ≠
      (['0', '1'] : List Char).take (min (['0', '1'] : List Char).length ([0, 0] : List Nat).length) := by
  decide

/-- Witness for C1 (amended) at a concrete buffer, bit string and
distinct in-bounds positions. -/
theorem embed_extract_roundtrip_witness :
    (∀ i, i ∉ ([2, 0] : List Nat) → (embedLSB [4, 5, 6] ['1', '0'] [2, 0])[i]? = [4, 5, 6][i]?) ∧
    (extractLSB (embedLSB [4, 5, 6] ['1', '0'] [2, 0]) [2, 0]).take
        (min (['1', '0'] : List Char).length ([2, 0] : List Nat).length) =
      (['1', '0'] : List Char).take (min (['1', '0'] : List Char).length ([2, 0] : List Nat).length) := by
  have h := embed_extract_roundtrip [4, 5, 6] ['1', '0'] [2, 0]
  exact ⟨h.1, h.2 (by decide) (by decide) (by decide)⟩

theorem embedLSB_lt (buf : List Nat) (bits : List Char) (ps : List Nat)
    (hb : ∀ c ∈ bits, c = '0' ∨ c = '1') (hbyte : ∀ v ∈ buf, v < 256) :
    ∀ v ∈ embedLSB buf bits ps, v < 256 := by
  induction bits generalizing buf ps with
  | nil => exact hbyte
  | cons c bits ih =>
    cases ps with
    | nil =>
      rw [embedLSB_nil_pos]
      exact hbyte
    | cons p ps =>
      rw [embedLSB_cons]
      apply ih _ _ (fun x hx => hb x (List.mem_cons_of_mem _ hx))
      intro v hv
      rcases List.mem_or_eq_of_mem_set hv with h | h
      · exact hbyte v h
      · subst h
        have hv0 : buf.getD p 0 < 256 := by
          by_cases hp : p < buf.length
          · rw [List.getD_eq_getElem _ _ hp]
            exact hbyte _ (List.getElem_mem hp)
          · rw [List.getD_eq_default _ _ (le_of_not_lt hp)]
            omega
        exact or_low_lt _ hv0 _ (bitVal_le_one (hb c (List.mem_cons_self _ _)))

/-- C10: embedding preserves the buffer length, changes only least
significant bits of byte-valued samples (so every sample moves by at
most 1), and is the identity when every listed position is out of
bounds. -/
theorem embedLSB_invariants (buf : List Nat) (bits : List Char) (positions : List Nat)
    (hb : ∀ c ∈ bits, c = '0' ∨ c = '1') (hbyte : ∀ v ∈ buf, v < 256) :
    (embedLSB buf bits positions).length = buf.length ∧
    (∀ i, i < buf.length →
      (embedLSB buf bits positions).getD i 0 / 2 = buf.getD i 0 / 2 ∧
      ((embedLSB buf bits positions).getD i 0 : Int) - (buf.getD i 0 : Int) ≤ 1 ∧
      (buf.getD i 0 : Int) - ((embedLSB buf bits positions).getD i 0 : Int) ≤ 1) ∧
    ((∀ p ∈ positions, buf.length ≤ p) → embedLSB buf bits positions = buf) := by
  refine ⟨embedLSB_length buf bits positions, fun i hi => ?_, fun hoob => ?_⟩
  · have hmask := embedLSB_masked buf bits positions hb i
    have hlen : i < (embedLSB buf bits positions).length := by
      rw [embedLSB_length]
      exact hi
    rw [List.getElem?_eq_getElem hlen, List.getElem?_eq_getElem hi] at hmask
    simp only [Option.map_some'] at hmask
    have hmv : (embedLSB buf bits positions)[i] &&& 0xFE = buf[i] &&& 0xFE :=
      Option.some.inj hmask
    have he : (embedLSB buf bits positions)[i] < 256 :=
      embedLSB_lt buf bits positions hb hbyte _ (List.getElem_mem hlen)
    have hbv : buf[i] < 256 := hbyte _ (List.getElem_mem hi)
    have h2 : 2 * ((embedLSB buf bits positions)[i] / 2) = 2 * (buf[i] / 2) := by
      rw [← and254_eq_two_mul _ he, ← and254_eq_two_mul _ hbv, hmv]
    rw [List.getD_eq_getElem _ _ hlen, List.getD_eq_getElem _ _ hi]
    refine ⟨by omega, by omega, by omega⟩
  · apply List.ext_getElem?
    intro i
    by_cases hm : i ∈ positions
    · have hge : buf.length ≤ i := hoob i hm
      rw [List.getElem?_eq_none_iff.mpr (by rw [embedLSB_length]; exact hge),
        List.getElem?_eq_none_iff.mpr hge]
    · exact embedLSB_getElem?_not_mem _ _ _ _ hm

/-- Witness for C10 at a concrete byte buffer, bit string and position
list (one in-bounds position, one out of bounds). -/
theorem embedLSB_invariants_witness :
    (embedLSB [5, 250] ['1', '0'] [0, 7]).length = ([5, 250] : List Nat).length ∧
    (∀ i, i < ([5, 250] : List Nat).length →
      (embedLSB [5, 250] ['1', '0'] [0, 7]).getD i 0 / 2 = ([5, 250] : List Nat).getD i 0 / 2 ∧
      ((embedLSB [5, 250] ['1', '0'] [0, 7]).getD i 0 : Int) - (([5, 250] : List Nat).getD i 0 : Int) ≤ 1 ∧
      (([5, 250] : List Nat).getD i 0 : Int) - ((embedLSB [5, 250] ['1', '0'] [0, 7]).getD i 0 : Int) ≤ 1) ∧
    ((∀ p ∈ ([0, 7] : List Nat), ([5, 250] : List Nat).length ≤ p) →
      embedLSB [5, 250] ['1', '0'] [0, 7] = [5, 250]) :=
  embedLSB_invariants [5, 250] ['1', '0'] [0, 7] (by decide) (by decide)

theorem genPosLoop_mem (step total : Nat) :
    ∀ fuel i p, p ∈ genPosLoop step total fuel i → p < total ∧ ∃ k, i ≤ k ∧ p = k * step := by
  intro fuel
  induction fuel with
  | zero =>
    intro i p hp
    simp [genPosLoop] at hp
  | succ fuel ih =>
    intro i p hp
    simp only [genPosLoop] at hp
    by_cases h : i * step < total
    · rw [if_pos h] at hp
      rcases List.mem_cons.mp hp with rfl | hp2
      · exact ⟨h, i, le_refl i, rfl⟩
      · obtain ⟨h1, k, hk, rfl⟩ := ih (i + 1) p hp2
        exact ⟨h1, k, by omega, rfl⟩
    · rw [if_neg h] at hp
      simp at hp

theorem genPosLoop_length (step total : Nat) :
    ∀ fuel i, (genPosLoop step total fuel i).length ≤ fuel := by
  intro fuel
  induction fuel with
  | zero =>
    intro i
    simp [genPosLoop]
  | succ fuel ih =>
    intro i
    simp only [genPosLoop]
    by_cases h : i * step < total
    · rw [if_pos h]
      simpa using ih (i + 1)
    · rw [if_neg h]
      simp

theorem genPosLoop_pairwise (step total : Nat) (hs : 0 < step) :
    ∀ fuel i, List.Pairwise (· < ·) (genPosLoop step total fuel i) := by
  intro fuel
  induction fuel with
  | zero =>
    intro i
    exact List.Pairwise.nil
  | succ fuel ih =>
    intro i
    simp only [genPosLoop]
    by_cases h : i * step < total
    · rw [if_pos h]
      refine List.pairwise_cons.mpr ⟨?_, ih (i + 1)⟩
      intro p hp
      obtain ⟨-, k, hk, rfl⟩ := genPosLoop_mem step total fuel (i + 1) p hp
      exact (Nat.mul_lt_mul_right hs).mpr (by omega)
    · rw [if_neg h]
      exact List.Pairwise.nil

/-- C4 (amended): the generated positions are always below
`totalSamples`, number at most 2048, and the function is deterministic;
they are strictly increasing when `totalSamples` is zero or at least
2048 (for `0 < totalSamples < 2048` the step underflows to 0 and the
loop emits 2048 copies of position 0). -/
theorem generateEmbedPositions_spec (totalSamples : Nat) :
    (∀ p ∈ generateEmbedPositions totalSamples, p < totalSamples) ∧
    (generateEmbedPositions totalSamples).length ≤ 2048 ∧
    generateEmbedPositions totalSamples = generateEmbedPositions totalSamples ∧
    (totalSamples = 0 ∨ 2048 ≤ totalSamples →
      List.Pairwise (· < ·) (generateEmbedPositions totalSamples)) := by
  refine ⟨fun p hp => (genPosLoop_mem _ _ _ _ p hp).1, genPosLoop_length _ _ _ _, rfl, ?_⟩
  rintro (rfl | ht)
  · decide
  · exact genPosLoop_pairwise _ _ ((Nat.one_le_div_iff (by omega)).mpr ht) 2048 0

/-- Counterexample to C4 as stated: for `totalSamples = 1` the step is
`floor(1 / 2048) = 0`, so the loop pushes `i * 0 = 0` for all 2048
iterations and the result is not strictly increasing. -/
theorem generateEmbedPositions_counterexample :
    ¬ List.Pairwise (· < ·) (generateEmbedPositions 1) := by
  intro h
  have htake : (generateEmbedPositions 1).take 2 = [0, 0] := by decide
  have h2 := List.Pairwise.sublist (List.take_sublist 2 (generateEmbedPositions 1)) h
  rw [htake] at h2
  exact absurd ((List.pairwise_cons.mp h2).1 0 (List.mem_cons_self 0 [])) (lt_irrefl 0)

/-- Witness for C4 (amended) at `totalSamples = 40000` (a 100 by 100
RGBA image). -/
theorem generateEmbedPositions_spec_witness :
    (∀ p ∈ generateEmbedPositions 40000, p < 40000) ∧
    (generateEmbedPositions 40000).length ≤ 2048 ∧
    List.Pairwise (· < ·) (generateEmbedPositions 40000) :=
  ⟨(generateEmbedPositions_spec 40000).1, (generateEmbedPositions_spec 40000).2.1,
    (generateEmbedPositions_spec 40000).2.2.2 (Or.inr (by omega))⟩

/-- C5 (amended): when every position is within the sample buffer,
extraction returns exactly one bit character per position, the i-th
being the least significant bit of the sample at the i-th position
(out-of-bounds positions, by contrast, are silently skipped and shrink
the output). -/
theorem extractLSB_spec (samples : List Nat) (positions : List Nat)
    (h : ∀ p ∈ positions, p < samples.length) :
    (extractLSB samples positions).length = positions.length ∧
    ∀ i, i < positions.length →
      (extractLSB samples positions).getD i '0' =
        if samples.getD (positions.getD i 0) 0 &&& 1 = 1 then '1' else '0' := by
  refine ⟨extractLSB_length_of_inbounds _ _ h, fun i hi => ?_⟩
  rw [extractLSB_eq_map _ _ h]
  have hlen : i < (positions.map
      (fun p => if samples.getD p 0 &&& 1 = 1 then '1' else '0')).length := by
    rw [List.length_map]
    exact hi
  rw [List.getD_eq_getElem _ _ hlen, List.getElem_map, List.getD_eq_getElem _ _ hi]

/-- Counterexample to C5 as stated: an out-of-bounds position is
skipped, so the output is shorter than the position list. -/
theorem extractLSB_spec_counterexample :
    (extractLSB [] [0]).length ≠ ([0] : List Nat).length := by decide

/-- Witness for C5 (amended) at a concrete sample buffer and in-bounds
position list. -/
theorem extractLSB_spec_witness :
    (extractLSB [2, 3] [1, 0]).length = ([1, 0] : List Nat).length ∧
    ∀ i, i < ([1, 0] : List Nat).length →
      (extractLSB [2, 3] [1, 0]).getD i '0' =
        if ([2, 3] : List Nat).getD (([1, 0] : List Nat).getD i 0) 0 &&& 1 = 1 then '1' else '0' :=
  extractLSB_spec [2, 3] [1, 0] (by decide)

/-- C6: `CryptographyService.verify` always returns a boolean and
converts every internal error to `false`: an unknown scheme (where
`getSigningAlgorithm` throws) yields `false`, a throwing cryptographic
primitive yields `false`, and `true` is only possible when both the
scheme resolved and the primitive succeeded with `true`. -/
theorem cryptoVerify_error_handling
    (nodeVerify : String → String → String → String → Except String Bool)
    (data signature publicKey signatureType : String) :
    (∀ e, getSigningAlgorithm signatureType = .error e →
      cryptoVerify nodeVerify data signature publicKey signatureType = false) ∧
    (∀ algorithm e, getSigningAlgorithm signatureType = .ok algorithm →
      nodeVerify algorithm data publicKey signature = .error e →
      cryptoVerify nodeVerify data signature publicKey signatureType = false) ∧
    (cryptoVerify nodeVerify data signature publicKey signatureType = true →
      ∃ algorithm, getSigningAlgorithm signatureType = .ok algorithm ∧
        nodeVerify algorithm data publicKey signature = .ok true) := by
  refine ⟨fun e he => ?_, fun algorithm e h1 h2 => ?_, fun ht => ?_⟩
  · simp [cryptoVerify, Bind.bind, Except.bind, he]
  · simp [cryptoVerify, Bind.bind, Except.bind, h1, h2]
  · cases h1 : getSigningAlgorithm signatureType with
    | error e => simp [cryptoVerify, Bind.bind, Except.bind, h1] at ht
    | ok algorithm =>
      cases h2 : nodeVerify algorithm data publicKey signature with
      | error e => simp [cryptoVerify, Bind.bind, Except.bind, h1, h2] at ht
      | ok b =>
        simp [cryptoVerify, Bind.bind, Except.bind, h1, h2] at ht
        exact ⟨algorithm, rfl, by rw [h2, ht]⟩

/-- Witness for C6: an unsupported scheme makes `verify` return
`false` even though the underlying primitive would have succeeded. -/
theorem cryptoVerify_error_handling_witness :
    cryptoVerify (fun _ _ _ _ => .ok true) "payload" "sig" "key" "dsa" = false :=
  (cryptoVerify_error_handling (fun _ _ _ _ => .ok true) "payload" "sig" "key" "dsa").1
    "Unknown signature type: dsa" rfl

theorem mem_attemptSignatureExtraction (pixelData : List Nat) (images : List ImageRecord)
    (a : ExtractionAttempt) (ha : a ∈ attemptSignatureExtraction pixelData images) :
    ∃ ps, a.embedPositions = ps ∧
      a.signature = bitsToSignature (extractLSB pixelData ps) ∧
      a.integrityScore = calculateIntegrityScore (extractLSB pixelData ps) := by
  rw [attemptSignatureExtraction, List.mem_filterMap] at ha
  obtain ⟨img, _, hsome⟩ := ha
  cases hep : img.embedPositions with
  | error e =>
    rw [hep] at hsome
    simp at hsome
  | ok o =>
    cases o with
    | none =>
      rw [hep] at hsome
      simp at hsome
    | some ps =>
      rw [hep] at hsome
      simp only [Option.some.injEq] at hsome
      subst hsome
      exact ⟨ps, rfl, rfl, rfl⟩

theorem bitsToSignature_nil : bitsToSignature [] = [] := rfl

theorem calculateIntegrityScore_binary (bits : List Char)
    (hb : ∀ c ∈ bits, c = '0' ∨ c = '1') (hne : bits ≠ []) :
    calculateIntegrityScore bits = some 100 := by
  have hfil : bits.filter (fun bit => bit == '0' || bit == '1') = bits := by
    rw [List.filter_eq_self]
    intro a ha
    rcases hb a ha with h | h <;> simp [h]
  have hlen : bits.length ≠ 0 := by simpa [List.length_eq_zero] using hne
  simp only [calculateIntegrityScore, hfil, if_neg hlen]
  congr 1
  have harith : 200 * bits.length + bits.length =
      2 * bits.length * 100 + bits.length := by ring
  rw [harith, Nat.mul_add_div (by omega), Nat.div_eq_of_lt (by omega)]

/-- C7: when some stored record's extracted signature verifies,
`verifyImage` returns at the first such record (in store order, which
is what `List.find?` scans), reporting `isValid = true`, that record's
id, the extracted signature and integrity score 100; the hypothesis
`hE` states that the cryptographic verifier rejects the empty
signature, which every real signature scheme does. -/
theorem verifyImage_first_match (verifier : String → List Char → String → String → Bool)
    (sha256 : List Nat → String) (pixelData : List Nat) (images : List ImageRecord)
    (a : ExtractionAttempt)
    (hE : ∀ h pk st, verifier h [] pk st = false)
    (hfind : (attemptSignatureExtraction pixelData images).find?
        (attemptVerifies verifier sha256 pixelData) = some a) :
    verifyImage verifier sha256 pixelData images =
      { isValid := true
        imageId := some a.imageId
        extractedSignature := some a.signature
        integrityScore := some 100
        method := "LSB_extraction"
        errorMessage := none } := by
  have hmem := List.mem_of_find?_eq_some hfind
  obtain ⟨ps, hps, hsig, hscore⟩ := mem_attemptSignatureExtraction _ _ _ hmem
  have hpa : attemptVerifies verifier sha256 pixelData a = true := List.find?_some hfind
  have hsne : a.signature ≠ [] := by
    intro hnil
    rw [attemptVerifies, hnil, hE] at hpa
    exact Bool.false_ne_true hpa
  have hbits_ne : extractLSB pixelData ps ≠ [] := by
    intro h0
    apply hsne
    rw [hsig, h0, bitsToSignature_nil]
  have h100 : a.integrityScore = some 100 := by
    rw [hscore]
    exact calculateIntegrityScore_binary _ (extractLSB_binary _ _) hbits_ne
  rw [verifyImage]
  simp only [hfind, ← h100]

/-- Witness for C7: one stored record over a four-sample image whose
LSBs spell the hex digit `f`; the verifier accepts every non-empty
signature. -/
theorem verifyImage_first_match_witness :
    verifyImage (fun _ s _ _ => !s.isEmpty) (fun _ => "h") [1, 1, 1, 1]
        [{ id := 7
           embedPositions := .ok (some [0, 1, 2, 3])
           publicKey := "pk"
           signatureType := "RSA-2048"
           artistName := "ar"
           artworkTitle := "ti"
           creationDate := "cd" }] =
      { isValid := true
        imageId := some 7
        extractedSignature := some ['f']
        integrityScore := some 100
        method := "LSB_extraction"
        errorMessage := none } :=
  verifyImage_first_match (fun _ s _ _ => !s.isEmpty) (fun _ => "h") [1, 1, 1, 1]
    [{ id := 7
       embedPositions := .ok (some [0, 1, 2, 3])
       publicKey := "pk"
       signatureType := "RSA-2048"
       artistName := "ar"
       artworkTitle := "ti"
       creationDate := "cd" }]
    { imageId := 7
      signature := ['f']
      publicKey := "pk"
      signatureType := "RSA-2048"
      embedPositions := [0, 1, 2, 3]
      integrityScore := some 100
      artistName := "ar"
      artworkTitle := "ti"
      creationDate := "cd" }
    (fun _ _ _ => rfl) rfl

/-- C8: a record whose stored positions raise an exception is skipped
without aborting the scan of the remaining records; and when no
attempt's signature verifies, `verifyImage` returns `Invalid` with
integrity score 0 and a non-empty error message. -/
theorem verifyImage_no_match (verifier : String → List Char → String → String → Bool)
    (sha256 : List Nat → String) (pixelData : List Nat) :
    (∀ pre post bad e, (bad : ImageRecord).embedPositions = .error e →
      attemptSignatureExtraction pixelData (pre ++ bad :: post) =
        attemptSignatureExtraction pixelData (pre ++ post)) ∧
    (∀ images : List ImageRecord,
      (∀ a ∈ attemptSignatureExtraction pixelData images,
        attemptVerifies verifier sha256 pixelData a = false) →
      verifyImage verifier sha256 pixelData images =
        { isValid := false
          imageId := none
          extractedSignature := none
          integrityScore := some 0
          method := "LSB_extraction"
          errorMessage := some "No valid signature found or signature verification failed" } ∧
      "No valid signature found or signature verification failed" ≠ "") := by
  constructor
  · intro pre post bad e he
    simp [attemptSignatureExtraction, List.filterMap_append, List.filterMap_cons, he]
  · intro images hall
    have hfind : (attemptSignatureExtraction pixelData images).find?
        (attemptVerifies verifier sha256 pixelData) = none := by
      rw [List.find?_eq_none]
      intro x hx
      simp [hall x hx]
    constructor
    · rw [verifyImage]
      simp only [hfind]
    · decide

/-- Witness for C8: a store holding one record with corrupt positions
and one unrelated record, and a verifier that rejects everything. -/
theorem verifyImage_no_match_witness :
    (attemptSignatureExtraction [1]
        ([] ++ ({ id := 1
                  embedPositions := .error "boom"
                  publicKey := "pk"
                  signatureType := "t"
                  artistName := "a"
                  artworkTitle := "b"
                  creationDate := "c" } : ImageRecord) :: []) =
      attemptSignatureExtraction [1] ([] ++ [])) ∧
    verifyImage (fun _ _ _ _ => false) (fun _ => "h") [1] [] =
      { isValid := false
        imageId := none
        extractedSignature := none
        integrityScore := some 0
        method := "LSB_extraction"
        errorMessage := some "No valid signature found or signature verification failed" } := by
  constructor
  · exact (verifyImage_no_match (fun _ _ _ _ => false) (fun _ => "h") [1]).1 [] []
      { id := 1
        embedPositions := .error "boom"
        publicKey := "pk"
        signatureType := "t"
        artistName := "a"
        artworkTitle := "b"
        creationDate := "c" } "boom" rfl
  · exact ((verifyImage_no_match (fun _ _ _ _ => false) (fun _ => "h") [1]).2 []
      (by intro a ha; simp [attemptSignatureExtraction] at ha)).1

theorem verifyImage_extractedSignature_isSome
    (verifier : String → List Char → String → String → Bool) (sha256 : List Nat → String)
    (pixelData : List Nat) (images : List ImageRecord) :
    (verifyImage verifier sha256 pixelData images).extractedSignature.isSome =
      (verifyImage verifier sha256 pixelData images).isValid := by
  rw [verifyImage]
  cases hf : (attemptSignatureExtraction pixelData images).find?
      (attemptVerifies verifier sha256 pixelData) <;> simp [hf]

/-- C3 is false on the code: `verifyImage` only populates
`extractedSignature` on a successful verification, so the
`extractionSuccessful` flag computed by `simulateAttack` as
`extractedSignature !== undefined` always coincides with
`verificationPassed` and can never be `true` while verification
failed. -/
theorem simulateAttack_extraction_equals_verification
    (transform : String → List Nat → Except String (List Nat))
    (verifier : String → List Char → String → String → Bool)
    (sha256 : List Nat → String) (psnrOf : List Nat → List Nat → Nat)
    (images : List ImageRecord) (originalBuffer : List Nat) (attackType : String)
    (r : AttackResult)
    (h : simulateAttack transform verifier sha256 psnrOf images originalBuffer attackType =
      .ok r) :
    r.extractionSuccessful = r.verificationPassed := by
  rw [simulateAttack] at h
  by_cases hmem : attackType ∈ knownAttackTypes
  · rw [if_pos hmem] at h
    cases htr : transform attackType originalBuffer with
    | error e =>
      rw [htr] at h
      simp [Except.map] at h
    | ok attackedBuffer =>
      rw [htr] at h
      simp only [Except.map, Except.ok.injEq] at h
      rw [← h]
      exact verifyImage_extractedSignature_isSome verifier sha256 attackedBuffer images
  · rw [if_neg hmem] at h
    exact absurd h (by simp)

/-- Witness for C3's refutation theorem: a run of `jpeg_compression`
over an empty record store, where both flags are false. -/
theorem simulateAttack_extraction_equals_verification_witness :
    ({ attackType := "jpeg_compression"
       verificationPassed := false
       integrityLoss := some 100
       psnr := 42
       extractionSuccessful := false } : AttackResult).extractionSuccessful =
      ({ attackType := "jpeg_compression"
         verificationPassed := false
         integrityLoss := some 100
         psnr := 42
         extractionSuccessful := false } : AttackResult).verificationPassed :=
  simulateAttack_extraction_equals_verification (fun _ b => .ok b) (fun _ _ _ _ => false)
    (fun _ => "h") (fun _ _ => 42) [] [] "jpeg_compression" _ rfl

/-- C9: `runSimulations` returns exactly one result per requested
attack type, in order; an entry whose simulation throws (for example a
failing transform, or an unknown attack type) is replaced by the
synthetic maximal-loss result and the remaining entries are still
processed, while a succeeding simulation contributes its own result. -/
theorem runSimulations_fault_isolation
    (transform : String → List Nat → Except String (List Nat))
    (verifier : String → List Char → String → String → Bool)
    (sha256 : List Nat → String) (psnrOf : List Nat → List Nat → Nat)
    (images : List ImageRecord) (originalBuffer : List Nat) (attackTypes : List String) :
    (runSimulations transform verifier sha256 psnrOf images originalBuffer attackTypes).length =
      attackTypes.length ∧
    (∀ (i : Nat) (t e : String), attackTypes[i]? = some t →
      simulateAttack transform verifier sha256 psnrOf images originalBuffer t = .error e →
      (runSimulations transform verifier sha256 psnrOf images originalBuffer attackTypes)[i]? =
        some { attackType := t
               verificationPassed := false
               integrityLoss := some 100
               psnr := 0
               extractionSuccessful := false }) ∧
    (∀ (i : Nat) (t : String) (r : AttackResult), attackTypes[i]? = some t →
      simulateAttack transform verifier sha256 psnrOf images originalBuffer t = .ok r →
      (runSimulations transform verifier sha256 psnrOf images originalBuffer attackTypes)[i]? =
        some r) := by
  refine ⟨List.length_map _ _, fun i t e hidx hsim => ?_, fun i t r hidx hsim => ?_⟩
  · rw [runSimulations, List.getElem?_map, hidx]
    simp [hsim]
  · rw [runSimulations, List.getElem?_map, hidx]
    simp [hsim]

/-- Witness for C9: a batch of one unknown attack type followed by a
known one; the first entry becomes the synthetic maximal-loss result
and the second is still simulated. -/
theorem runSimulations_fault_isolation_witness :
    (runSimulations (fun _ b => .ok b) (fun _ _ _ _ => false) (fun _ => "h") (fun _ _ => 9)
        [] [] ["melt", "jpeg_compression"]).length = (["melt", "jpeg_compression"] : List String).length ∧
    (runSimulations (fun _ b => .ok b) (fun _ _ _ _ => false) (fun _ => "h") (fun _ _ => 9)
        [] [] ["melt", "jpeg_compression"])[0]? =
      some { attackType := "melt"
             verificationPassed := false
             integrityLoss := some 100
             psnr := 0
             extractionSuccessful := false } ∧
    (runSimulations (fun _ b => .ok b) (fun _ _ _ _ => false) (fun _ => "h") (fun _ _ => 9)
        [] [] ["melt", "jpeg_compression"])[1]? =
      some { attackType := "jpeg_compression"
             verificationPassed := false
             integrityLoss := some 100
             psnr := 9
             extractionSuccessful := false } := by
  have h := runSimulations_fault_isolation (fun _ b => .ok b) (fun _ _ _ _ => false)
    (fun _ => "h") (fun _ _ => 9) [] [] ["melt", "jpeg_compression"]
  exact ⟨h.1, h.2.1 0 "melt" "Unknown attack type: melt" rfl rfl,
    h.2.2 1 "jpeg_compression" _ rfl rfl⟩

end Stego
